import Mathlib

/-
Verification of the NEAT evolutionary core (src/src/neat.c, src/include/neat.h,
src/include/config.h) against its natural-language specification.

Modelling conventions, fixed once for the whole development:

* C `double` values are modelled as exact rationals.  The transcendental
  library functions the code calls (exp, tanh, sin, log, sqrt, cos) are
  collected in an `AnalyticOracle` parameter: any rational-valued model of
  those functions.  Properties proved for every oracle hold in particular
  for the real functions; concrete computations instantiate the oracle.
  Where the C code would round (a 64-bit integer cast to double, or decimal
  literals), the model keeps the exact value; no claim below depends on the
  low-order bits lost to rounding.
* The process-wide RNG (static g_random_seed, a 64-bit unsigned long on the
  target platform) is threaded explicitly: every randomized function takes a
  seed and returns the advanced seed.
* Dynamic arrays become lists; capacity fields and reallocation are dropped
  (allocation failure aborts the process in the C code, see neat_malloc).
  The separately stored evaluation_order pointer plus size pair becomes
  Option (List Nat), none standing for NULL.
* Reads through invalid indices (out-of-bounds array accesses, which are
  undefined behavior in the C code) make the modelled operation return none.
* C while-loops without a structural bound take a fuel argument; one unit of
  fuel is one loop iteration, and the loop guard is tested before fuel is
  consumed, so a result of none for every fuel amount means the loop never
  exits.
* Species member arrays and the representative hold pointers into the
  population in C; the model copies genomes by value.  The claims below
  only read fitness fields that are set before the aliasing could matter,
  and tournament selection tracks member indices where the C code compares
  member pointers (the members of one species are pairwise distinct
  objects, so pointer equality is index equality).
* The evaluate_genome callback of the population is external to the core (spec
  section 1); the model covers the NULL-callback path of neat_evolve, with
  fitness values already stored on the genomes.
-/

set_option linter.unusedVariables false

/-- Rational-valued model of the transcendental C library functions used by
neat.c.  Any assignment is admissible; theorems quantify over it. -/
structure AnalyticOracle where
  exp : ℚ → ℚ
  tanh : ℚ → ℚ
  sin : ℚ → ℚ
  log : ℚ → ℚ
  sqrt : ℚ → ℚ
  cos : ℚ → ℚ

/-- Concrete oracle sending every transcendental call to 0, used for closed
evaluations whose outcome does not depend on the sampled weights. -/
def zeroOracle : AnalyticOracle :=
  { exp := fun _ => 0, tanh := fun _ => 0, sin := fun _ => 0
    log := fun _ => 0, sqrt := fun _ => 0, cos := fun _ => 0 }

/- Configuration constants from src/include/config.h. -/

def NEAT_MAX_ACTIVATION_FUNCS : ℤ := 10
def NEAT_MAX_INPUTS : ℕ := 1000
def NEAT_MAX_OUTPUTS : ℕ := 100
def NEAT_COMPATIBILITY_THRESHOLD : ℚ := 3
def NEAT_EXCESS_COEFF : ℚ := 1
def NEAT_DISJOINT_COEFF : ℚ := 1
def NEAT_WEIGHT_COEFF : ℚ := 0.4
def NEAT_MUTATE_NODE_RATE : ℚ := 0.03
def NEAT_MUTATE_LINK_RATE : ℚ := 0.05
def NEAT_MUTATE_WEIGHT_RATE : ℚ := 0.8
def NEAT_MUTATE_TOGGLE_LINK_RATE : ℚ := 0.1
def NEAT_MUTATE_ACTIVATION_RATE : ℚ := 0.1
def NEAT_WEIGHT_MUTATION_POWER : ℚ := 2.5
def NEAT_WEIGHT_RANDOM_STRENGTH : ℚ := 1.0

/-- M_PI as the double literal in neat.c. -/
def M_PI : ℚ := 3.14159265358979323846

/-- NEAT_ALLOW_RECURRENT defaults to 0 in neat.c. -/
def NEAT_ALLOW_RECURRENT : Bool := false

/- RNG: xorshift on the 64-bit global seed (unsigned long on the target). -/

def two64 : ℕ := 18446744073709551616

def UINT32_MAX_Q : ℚ := 4294967295

/-- xorshift32 from neat.c: the three shift-xor steps on the 64-bit seed;
returns the new seed, which is also the drawn value. -/
def xorshift32 (s : ℕ) : ℕ :=
  let x := (s ^^^ (s <<< 13)) % two64
  let x := x ^^^ (x >>> 17)
  (x ^^^ (x <<< 5)) % two64

/-- neat_random_uniform: min + (max-min) * (draw / UINT32_MAX).  The C cast
of the 64-bit draw to double is modelled exactly. -/
def neat_random_uniform (mn mx : ℚ) (s : ℕ) : ℚ × ℕ :=
  let x := xorshift32 s
  (mn + (mx - mn) * ((x : ℚ) / UINT32_MAX_Q), x)

/-- neat_random_normal: Box-Muller transform through the oracle. -/
def neat_random_normal (O : AnalyticOracle) (mean stddev : ℚ) (s : ℕ) : ℚ × ℕ :=
  let u1 := neat_random_uniform 0 1 s
  let u2 := neat_random_uniform 0 1 u1.2
  let z0 := O.sqrt (-2 * O.log u1.1) * O.cos (2 * M_PI * u2.1)
  (mean + stddev * z0, u2.2)

/-- neat_random_int: min + draw % (max - min + 1).  Every caller in neat.c
passes min ≤ max; for max < min the C computation is junk, and so is the
model here. -/
def neat_random_int (mn mx : ℤ) (s : ℕ) : ℤ × ℕ :=
  let x := xorshift32 s
  (mn + ((x % (mx - mn + 1).toNat : ℕ) : ℤ), x)

/- Enumerations from config.h. -/

inductive ActT where
  | sigmoid | tanh | relu | leakyRelu | linear
  | step | softsign | sin | gaussian | abs
deriving DecidableEq

/-- Decoding of the int handed to the activation_type field of a node by
neat_mutate_activation; the generator only produces 0..9. -/
def ActT.ofInt : ℤ → ActT
  | 0 => .sigmoid
  | 1 => .tanh
  | 2 => .relu
  | 3 => .leakyRelu
  | 4 => .linear
  | 5 => .step
  | 6 => .softsign
  | 7 => .sin
  | 8 => .gaussian
  | 9 => .abs
  | _ => .sigmoid

inductive NodeT where
  | input | hidden | output | bias
deriving DecidableEq

inductive PlacementT where
  | input | hidden | output
deriving DecidableEq

/-- neat_activation from neat.c (the static dispatcher used by the
evaluator).  The C default branch is unreachable for a closed enum. -/
def neat_activation (O : AnalyticOracle) (t : ActT) (x : ℚ) : ℚ :=
  match t with
  | .sigmoid => 1 / (1 + O.exp (-x))
  | .tanh => O.tanh x
  | .relu => if x > 0 then x else 0
  | .leakyRelu => if x > 0 then x else 0.01 * x
  | .linear => x
  | .step => if x > 0 then 1 else 0
  | .softsign => x / (1 + |x|)
  | .sin => O.sin x
  | .gaussian => O.exp (-(x * x))
  | .abs => |x|

/- Data model from include/neat.h. -/

structure NeatNode where
  id : ℤ
  type : NodeT
  placement : PlacementT
  activation_type : ActT
  value : ℚ
  bias : ℚ
  active : Bool
  x_pos : ℤ
deriving DecidableEq

structure NeatConnection where
  innovation : ℤ
  in_node : ℤ
  out_node : ℤ
  weight : ℚ
  enabled : Bool
deriving DecidableEq

structure NeatGenome where
  id : ℤ
  nodes : List NeatNode
  connections : List NeatConnection
  fitness : ℚ
  adjusted_fitness : ℚ
  global_rank : ℤ
  species_id : ℤ
  evaluation_order : Option (List ℕ)
deriving DecidableEq

structure NeatInnovation where
  innovation_id : ℤ
  in_node : ℤ
  out_node : ℤ
  innovation_number : ℤ
  is_new_node : Bool
  node_id : ℤ
  weight : ℚ
deriving DecidableEq

structure NeatInnovationTable where
  innovations : List NeatInnovation
  next_innovation : ℤ
  next_node_id : ℤ
  next_species_id : ℤ
deriving DecidableEq

structure NeatSpecies where
  id : ℤ
  members : List NeatGenome
  best_fitness : ℚ
  average_fitness : ℚ
  staleness : ℤ
  age : ℤ
  representative : Option NeatGenome
deriving DecidableEq

structure NeatPopulation where
  genomes : List NeatGenome
  species : List NeatSpecies
  innovation_table : NeatInnovationTable
  population_size : ℕ
  generation : ℤ
  max_fitness_achieved : ℤ
deriving DecidableEq

/-- Placeholder node for getD reads at indices the C code has already
checked to be in range. -/
def ndummy : NeatNode :=
  { id := 0, type := .hidden, placement := .hidden, activation_type := .sigmoid
    value := 0, bias := 0, active := true, x_pos := 0 }

/-- Placeholder connection, in the same role as ndummy. -/
def cdummy : NeatConnection :=
  { innovation := -1, in_node := 0, out_node := 0, weight := 0, enabled := false }

/-- Placeholder genome, in the same role as ndummy. -/
def gdummy : NeatGenome :=
  { id := 0, nodes := [], connections := [], fitness := 0, adjusted_fitness := 0
    global_rank := 0, species_id := -1, evaluation_order := none }

/-- Placeholder species, in the same role as ndummy. -/
def spdummy : NeatSpecies :=
  { id := 0, members := [], best_fitness := 0, average_fitness := 0
    staleness := 0, age := 0, representative := none }

/-- Truncation toward zero, the semantics of the C double-to-int cast for
in-range values. -/
def ctrunc (q : ℚ) : ℤ :=
  if q < 0 then ⌈q⌉ else ⌊q⌋

/- Genome construction and manipulation (neat.c lines 174-323). -/

/-- neat_create_node: the bias scalar is drawn from N(0,1). -/
def neat_create_node (O : AnalyticOracle) (id : ℤ) (t : NodeT) (p : PlacementT)
    (s : ℕ) : NeatNode × ℕ :=
  let b := neat_random_normal O 0 1 s
  ({ id := id, type := t, placement := p, activation_type := .sigmoid
     value := 0, bias := b.1, active := true, x_pos := 0 }, b.2)

/-- neat_create_genome. -/
def neat_create_genome (id : ℤ) : NeatGenome :=
  { id := id, nodes := [], connections := [], fitness := 0, adjusted_fitness := 0
    global_rank := 0, species_id := -1, evaluation_order := none }

/-- neat_add_node: appends a node whose local id is the current node count
and returns that id.  The statements that would clear the cached
evaluation order sit after the return statement in neat.c (lines 276-285)
and never execute, so the cache is left untouched. -/
def neat_add_node (O : AnalyticOracle) (g : NeatGenome) (t : NodeT)
    (p : PlacementT) (s : ℕ) : ℤ × NeatGenome × ℕ :=
  let r := neat_create_node O (g.nodes.length : ℤ) t p s
  ((g.nodes.length : ℤ), { g with nodes := g.nodes ++ [r.1] }, r.2)

/-- The duplicate-endpoint scan at the top of neat_add_connection. -/
def connExists : List NeatConnection → ℤ → ℤ → Bool
  | [], _, _ => false
  | c :: cs, i, o => if c.in_node = i ∧ c.out_node = o then true else connExists cs i o

/-- neat_add_connection: rejects only endpoint duplicates (returning -1 and
leaving the genome untouched); otherwise appends the gene with innovation
provisionally -1, clears the cached evaluation order and returns 0. -/
def neat_add_connection (g : NeatGenome) (i o : ℤ) (w : ℚ) (e : Bool) :
    ℤ × NeatGenome :=
  if connExists g.connections i o then (-1, g)
  else
    (0, { g with
          connections := g.connections ++
            [{ innovation := -1, in_node := i, out_node := o, weight := w, enabled := e }]
          evaluation_order := none })

/- Innovation registry (neat.c lines 746-804). -/

/-- neat_get_innovation: memoised on (in_node, out_node, is_new_node); a
fresh record burns one counter value for its innovation_id field and a
second for the returned innovation_number (or takes the number from the
node-id counter when is_new_node is set). -/
def neat_get_innovation (table : NeatInnovationTable) (i o : ℤ)
    (isNewNode : Bool) (nodeId : ℤ) (w : ℚ) : ℤ × NeatInnovationTable :=
  match table.innovations.find? fun r =>
      r.in_node == i && r.out_node == o && r.is_new_node == isNewNode with
  | some r => (r.innovation_number, table)
  | none =>
    let innovId := table.next_innovation
    let t1 := { table with next_innovation := table.next_innovation + 1 }
    let numAndT : ℤ × NeatInnovationTable :=
      if isNewNode then
        (t1.next_node_id, { t1 with next_node_id := t1.next_node_id + 1 })
      else
        (t1.next_innovation, { t1 with next_innovation := t1.next_innovation + 1 })
    let rec' : NeatInnovation :=
      { innovation_id := innovId, in_node := i, out_node := o
        innovation_number := numAndT.1, is_new_node := isNewNode
        node_id := if isNewNode then nodeId else 0, weight := w }
    (numAndT.1, { numAndT.2 with innovations := numAndT.2.innovations ++ [rec'] })

/- Mutation operators (neat.c lines 325-536). -/

/-- State-threaded map, the shape of the per-element for-loops that draw
random numbers while rewriting an array in place. -/
def statefulMap (f : α → ℕ → α × ℕ) : List α → ℕ → List α × ℕ
  | [], s => ([], s)
  | a :: as, s =>
    let r := f a s
    let rs := statefulMap f as r.2
    (r.1 :: rs.1, rs.2)

/-- Per-connection body of neat_mutate_weights. -/
def mutateConnWeight (O : AnalyticOracle) (c : NeatConnection) (s : ℕ) :
    NeatConnection × ℕ :=
  let u := neat_random_uniform 0 1 s
  if u.1 < NEAT_WEIGHT_MUTATION_POWER then
    let d := neat_random_normal O 0 NEAT_WEIGHT_RANDOM_STRENGTH u.2
    let c1 := { c with weight := c.weight + d.1 }
    let u2 := neat_random_uniform 0 1 d.2
    if u2.1 < 0.1 then
      let w := neat_random_normal O 0 NEAT_WEIGHT_RANDOM_STRENGTH u2.2
      ({ c1 with weight := w.1 }, w.2)
    else (c1, u2.2)
  else (c, u.2)

/-- Per-node bias body of neat_mutate_weights. -/
def mutateNodeBias (O : AnalyticOracle) (n : NeatNode) (s : ℕ) : NeatNode × ℕ :=
  let u := neat_random_uniform 0 1 s
  if u.1 < NEAT_MUTATE_WEIGHT_RATE then
    let d := neat_random_normal O 0 NEAT_WEIGHT_RANDOM_STRENGTH u.2
    ({ n with bias := n.bias + d.1 }, d.2)
  else (n, u.2)

/-- neat_mutate_weights. -/
def neat_mutate_weights (O : AnalyticOracle) (g : NeatGenome) (s : ℕ) :
    NeatGenome × ℕ :=
  let cs := statefulMap (mutateConnWeight O) g.connections s
  let ns := statefulMap (mutateNodeBias O) g.nodes cs.2
  ({ g with connections := cs.1, nodes := ns.1 }, ns.2)

/-- Overwrites the innovation field of the connection at index k, as the
post-mutation patch-up writes through genome->connections[k]. -/
def setInnovAt (g : NeatGenome) (k : ℕ) (inn : ℤ) : NeatGenome :=
  { g with connections :=
      g.connections.set k { g.connections.getD k cdummy with innovation := inn } }

/-- neat_mutate_add_connection.  The innovation-table pointer is always the
table of the population at the call sites in this repository, so the NULL-table
branch of the C code is not modelled. -/
def neat_mutate_add_connection (O : AnalyticOracle) (g : NeatGenome)
    (table : NeatInnovationTable) (s : ℕ) :
    NeatGenome × NeatInnovationTable × ℕ :=
  if g.nodes.length < 2 then (g, table, s)
  else
    let fi := neat_random_int 0 ((g.nodes.length : ℤ) - 1) s
    let ti := neat_random_int 0 ((g.nodes.length : ℤ) - 1) fi.2
    if fi.1 = ti.1 then (g, table, ti.2)
    else
      let fromN := g.nodes.getD fi.1.toNat ndummy
      let toN := g.nodes.getD ti.1.toNat ndummy
      -- NEAT_ALLOW_RECURRENT is 0, so the cycle guard below is active
      if !NEAT_ALLOW_RECURRENT && decide (fromN.x_pos ≥ toN.x_pos) then (g, table, ti.2)
      else if connExists g.connections fromN.id toN.id then (g, table, ti.2)
      else
        let w := neat_random_normal O 0 NEAT_WEIGHT_RANDOM_STRENGTH ti.2
        let gi := neat_get_innovation table fromN.id toN.id false (-1) w.1
        let r := neat_add_connection g fromN.id toN.id w.1 true
        let g2 := if gi.1 ≠ -1 ∧ r.2.connections.length > 0 then
            setInnovAt r.2 (r.2.connections.length - 1) gi.1
          else r.2
        (g2, gi.2, w.2)

/-- The bounded search for an enabled connection at the top of
neat_mutate_add_node (at most 100 draws). -/
def findEnabledConn (conns : List NeatConnection) (s : ℕ) :
    ℕ → Option ℕ × ℕ
  | 0 => (none, s)
  | att + 1 =>
    let ci := neat_random_int 0 ((conns.length : ℤ) - 1) s
    if (conns.getD ci.1.toNat cdummy).enabled then (some ci.1.toNat, ci.2)
    else findEnabledConn conns ci.2 att

/-- neat_mutate_add_node: disables the split connection, appends a hidden
node with the genome-local next id, and appends the two replacement
connections whose innovation numbers come from the registry keyed on that
local node id.  The C code reads the split connection through a pointer
into the connections array; the model captures its fields at the index
found, which the intervening writes do not change. -/
def neat_mutate_add_node (O : AnalyticOracle) (g : NeatGenome)
    (table : NeatInnovationTable) (s : ℕ) :
    NeatGenome × NeatInnovationTable × ℕ :=
  if g.connections.length = 0 then (g, table, s)
  else
    let fr := findEnabledConn g.connections s 100
    match fr.1 with
    | none => (g, table, fr.2)
    | some ci =>
      let conn := g.connections.getD ci cdummy
      if !conn.enabled then (g, table, fr.2)
      else
        let g1 := { g with connections := g.connections.set ci { conn with enabled := false } }
        let an := neat_add_node O g1 .hidden .hidden fr.2
        let newId := an.1
        let g2 := an.2.1
        let w1 : ℚ := 1
        let w2 := conn.weight
        let i1 := neat_get_innovation table conn.in_node newId false (-1) w1
        let i2 := neat_get_innovation i1.2 newId conn.out_node false (-1) w2
        let r1 := neat_add_connection g2 conn.in_node newId w1 true
        let r2 := neat_add_connection r1.2 newId conn.out_node w2 true
        let g3 := if i1.1 ≠ -1 ∧ r2.2.connections.length > 1 then
            setInnovAt (setInnovAt r2.2 (r2.2.connections.length - 2) i1.1)
              (r2.2.connections.length - 1) i2.1
          else r2.2
        (g3, i2.2, an.2.2)

/-- Reservoir pass of neat_mutate_toggle_connection: counts enabled
connections and keeps the index of the running uniform choice among them. -/
def togglePick : List NeatConnection → ℕ → ℕ → ℕ → Option ℕ → ℕ →
    (ℕ × Option ℕ × ℕ)
  | [], _, cnt, _, sel, s => (cnt, sel, s)
  | c :: cs, i, cnt, _, sel, s =>
    if c.enabled then
      let cnt' := cnt + 1
      let u := neat_random_uniform 0 1 s
      let sel' := if u.1 < 1 / (cnt' : ℚ) then some i else sel
      togglePick cs (i + 1) cnt' 0 sel' u.2
    else togglePick cs (i + 1) cnt 0 sel s

/-- Walk to the target-th disabled connection and enable it (the re-enable
branch of neat_mutate_toggle_connection). -/
def enableDisabledAt : List NeatConnection → ℕ → List NeatConnection
  | [], _ => []
  | c :: cs, target =>
    if !c.enabled then
      if target = 0 then { c with enabled := true } :: cs
      else c :: enableDisabledAt cs (target - 1)
    else c :: enableDisabledAt cs target

/-- neat_mutate_toggle_connection. -/
def neat_mutate_toggle_connection (g : NeatGenome) (s : ℕ) : NeatGenome × ℕ :=
  if g.connections.length = 0 then (g, s)
  else
    let tp := togglePick g.connections 0 0 0 none s
    match tp.2.1 with
    | none =>
      let disabledCount := g.connections.length - tp.1
      if disabledCount > 0 then
        let t := neat_random_int 0 ((disabledCount : ℤ) - 1) tp.2.2
        ({ g with connections := enableDisabledAt g.connections t.1.toNat }, t.2)
      else (g, tp.2.2)
    | some i =>
      let c := g.connections.getD i cdummy
      ({ g with connections := g.connections.set i { c with enabled := !c.enabled } }, tp.2.2)

/-- neat_mutate_activation. -/
def neat_mutate_activation (g : NeatGenome) (s : ℕ) : NeatGenome × ℕ :=
  if g.nodes.length = 0 then (g, s)
  else
    let ni := neat_random_int 0 ((g.nodes.length : ℤ) - 1) s
    let n := g.nodes.getD ni.1.toNat ndummy
    if n.type = .input ∨ n.type = .bias then (g, ni.2)
    else
      let a := neat_random_int 0 (NEAT_MAX_ACTIVATION_FUNCS - 1) ni.2
      ({ g with nodes := g.nodes.set ni.1.toNat { n with activation_type := ActT.ofInt a.1 } }, a.2)

/-- neat_mutate: the five probability-gated operators in program order. -/
def neat_mutate (O : AnalyticOracle) (g : NeatGenome)
    (table : NeatInnovationTable) (s : ℕ) :
    NeatGenome × NeatInnovationTable × ℕ :=
  let u1 := neat_random_uniform 0 1 s
  let r1 := if u1.1 < NEAT_MUTATE_WEIGHT_RATE then neat_mutate_weights O g u1.2 else (g, u1.2)
  let u2 := neat_random_uniform 0 1 r1.2
  let r2 := if u2.1 < NEAT_MUTATE_NODE_RATE then neat_mutate_add_node O r1.1 table u2.2
    else (r1.1, table, u2.2)
  let u3 := neat_random_uniform 0 1 r2.2.2
  let r3 := if u3.1 < NEAT_MUTATE_LINK_RATE then neat_mutate_add_connection O r2.1 r2.2.1 u3.2
    else (r2.1, r2.2.1, u3.2)
  let u4 := neat_random_uniform 0 1 r3.2.2
  let r4 := if u4.1 < NEAT_MUTATE_TOGGLE_LINK_RATE then neat_mutate_toggle_connection r3.1 u4.2
    else (r3.1, u4.2)
  let u5 := neat_random_uniform 0 1 r4.2
  let r5 := if u5.1 < NEAT_MUTATE_ACTIVATION_RATE then neat_mutate_activation r4.1 u5.2
    else (r4.1, u5.2)
  (r5.1, r3.2.1, r5.2)

/- Crossover (neat.c lines 538-609). -/

/-- Node-copy loop of neat_crossover: add_node then overwrite bias and
activation kind from the fitter parent. -/
def copyNodes (O : AnalyticOracle) : List NeatNode → NeatGenome → ℕ →
    NeatGenome × ℕ
  | [], c, s => (c, s)
  | n :: ns, c, s =>
    let r := neat_add_node O c n.type n.placement s
    let idx := r.1.toNat
    let patched : NeatNode :=
      { r.2.1.nodes.getD idx ndummy with bias := n.bias, activation_type := n.activation_type }
    let c1 := { r.2.1 with nodes := r.2.1.nodes.set idx patched }
    copyNodes O ns c1 r.2.2

/-- First connection loop of neat_crossover: for each gene of the fitter
parent, a matching-innovation gene of the other parent is inherited with
probability one half (the coin is only tossed when a match exists). -/
def inheritConns (O : AnalyticOracle) :
    List NeatConnection → List NeatConnection → NeatGenome → ℕ → NeatGenome × ℕ
  | [], _, c, s => (c, s)
  | conn :: rest, otherConns, c, s =>
    let matching := otherConns.find? fun d => d.innovation == conn.innovation
    let pick : NeatConnection × ℕ :=
      match matching with
      | some m =>
        let u := neat_random_uniform 0 1 s
        (if u.1 < 0.5 then m else conn, u.2)
      | none => (conn, s)
    let r := neat_add_connection c pick.1.in_node pick.1.out_node pick.1.weight pick.1.enabled
    inheritConns O rest otherConns r.2 pick.2

/-- Second connection loop of neat_crossover: genes of the other parent
absent from the fitter parent are added with probability one half. -/
def addDisjoint (O : AnalyticOracle) :
    List NeatConnection → List NeatConnection → NeatGenome → ℕ → NeatGenome × ℕ
  | [], _, c, s => (c, s)
  | conn :: rest, fitterConns, c, s =>
    if fitterConns.any fun d => d.innovation == conn.innovation then
      addDisjoint O rest fitterConns c s
    else
      let u := neat_random_uniform 0 1 s
      let c1 := if u.1 < 0.5 then
          (neat_add_connection c conn.in_node conn.out_node conn.weight conn.enabled).2
        else c
      addDisjoint O rest fitterConns c1 u.2

/-- neat_crossover. -/
def neat_crossover (O : AnalyticOracle) (p1 p2 : NeatGenome) (s : ℕ) :
    NeatGenome × ℕ :=
  let fitter := if p1.fitness ≥ p2.fitness then p1 else p2
  let other := if p1.fitness ≥ p2.fitness then p2 else p1
  let c0 := neat_create_genome (-1)
  let r1 := copyNodes O fitter.nodes c0 s
  let r2 := inheritConns O fitter.connections other.connections r1.1 r1.2
  addDisjoint O other.connections fitter.connections r2.1 r2.2

/- Compatibility distance (neat.c lines 611-657). -/

/-- The two-pointer gene walk of neat_compatibility_distance, returning
(matching, disjoint, sum of matching-weight differences, excess). -/
def cdWalk : List NeatConnection → List NeatConnection → ℕ × ℕ × ℚ × ℕ
  | [], ys => (0, 0, 0, ys.length)
  | x :: xs, [] => (0, 0, 0, (x :: xs).length)
  | x :: xs, y :: ys =>
    if x.innovation = y.innovation then
      let r := cdWalk xs ys
      (r.1 + 1, r.2.1, r.2.2.1 + |x.weight - y.weight|, r.2.2.2)
    else if x.innovation < y.innovation then
      let r := cdWalk xs (y :: ys)
      (r.1, r.2.1 + 1, r.2.2.1, r.2.2.2)
    else
      let r := cdWalk (x :: xs) ys
      (r.1, r.2.1 + 1, r.2.2.1, r.2.2.2)
termination_by xs ys => xs.length + ys.length

/-- neat_compatibility_distance. -/
def neat_compatibility_distance (g1 g2 : NeatGenome) : ℚ :=
  let r := cdWalk g1.connections g2.connections
  let matching := r.1
  let disjoint := r.2.1
  let wsum := r.2.2.1
  let excess := r.2.2.2
  let n0 : ℚ := (max g1.connections.length g2.connections.length : ℕ)
  let n : ℚ := if n0 < 20 then 1 else n0
  let dist := (NEAT_EXCESS_COEFF * excess) / n + (NEAT_DISJOINT_COEFF * disjoint) / n
  if matching > 0 then dist + (NEAT_WEIGHT_COEFF * wsum) / (matching : ℚ) else dist

/- Network evaluation (neat.c lines 659-744). -/

/-- Input-setting loop of neat_evaluate: the k-th input node reads
inputs[k] (an out-of-bounds read of the caller array is undefined
behavior, modelled as none); past NEAT_MAX_INPUTS input nodes get 0.
Bias nodes are set to 1 and all other nodes are reset to 0. -/
def setInputValues : List NeatNode → List ℚ → ℕ → Option (List NeatNode)
  | [], _, _ => some []
  | n :: ns, inputs, cnt =>
    match n.type with
    | .input =>
      if cnt < NEAT_MAX_INPUTS then
        match inputs[cnt]? with
        | none => none
        | some v => (setInputValues ns inputs (cnt + 1)).map ({ n with value := v } :: ·)
      else (setInputValues ns inputs cnt).map ({ n with value := 0 } :: ·)
    | .bias => (setInputValues ns inputs cnt).map ({ n with value := 1 } :: ·)
    | _ => (setInputValues ns inputs cnt).map ({ n with value := 0 } :: ·)

/-- Weighted-input accumulation of neat_update_network for one target node:
enabled connections into it contribute weight times the source value, the
source being nodes[conn.in_node] (an invalid index is undefined behavior,
modelled as none), counted only while the source is active. -/
def sumIncoming (nodes : List NeatNode) (outId : ℤ) :
    List NeatConnection → ℚ → Option ℚ
  | [], acc => some acc
  | c :: cs, acc =>
    if c.out_node = outId ∧ c.enabled then
      if c.in_node < 0 then none
      else
        match nodes[c.in_node.toNat]? with
        | none => none
        | some src =>
          sumIncoming nodes outId cs (if src.active then acc + src.value * c.weight else acc)
    else sumIncoming nodes outId cs acc

/-- Evaluation loop of neat_update_network: nodes are visited in the cached
order, input nodes are skipped, every other node gets
f(bias + weighted sum) where f is its activation kind. -/
def evalNodesInOrder (O : AnalyticOracle) (g : NeatGenome) :
    List ℕ → Option NeatGenome
  | [] => some g
  | idx :: rest =>
    match g.nodes[idx]? with
    | none => none
    | some node =>
      if node.type = .input then evalNodesInOrder O g rest
      else
        match sumIncoming g.nodes node.id g.connections 0 with
        | none => none
        | some sum =>
          let v := neat_activation O node.activation_type (sum + node.bias)
          evalNodesInOrder O { g with nodes := g.nodes.set idx { node with value := v } } rest

/-- neat_update_network: computes the identity evaluation order when the
cache is NULL, zeroes every non-input node value, then runs the ordered
pass. -/
def neat_update_network (O : AnalyticOracle) (g : NeatGenome) : Option NeatGenome :=
  let order := match g.evaluation_order with
    | some o => o
    | none => List.range g.nodes.length
  let g1 := { g with evaluation_order := some order }
  let g2 := { g1 with nodes := g1.nodes.map fun n =>
      if n.type = .input then n else { n with value := 0 } }
  evalNodesInOrder O g2 order

/-- Output-collection loop of neat_evaluate (first NEAT_MAX_OUTPUTS output
nodes, in declaration order). -/
def collectOutputs : List NeatNode → ℕ → List ℚ
  | [], _ => []
  | n :: ns, cnt =>
    if n.type = .output then
      if cnt < NEAT_MAX_OUTPUTS then n.value :: collectOutputs ns (cnt + 1)
      else collectOutputs ns cnt
    else collectOutputs ns cnt

/-- neat_evaluate: set inputs and bias, update the network, read outputs.
The C function returns void; the returned pair is the mutated genome plus
the values written into the outputs array of the caller. -/
def neat_evaluate (O : AnalyticOracle) (g : NeatGenome) (inputs : List ℚ) :
    Option (NeatGenome × List ℚ) :=
  match setInputValues g.nodes inputs 0 with
  | none => none
  | some ns =>
    match neat_update_network O { g with nodes := ns } with
    | none => none
    | some g1 => some (g1, collectOutputs g1.nodes 0)

/-- Number of input-role nodes of a genome. -/
def countInputNodes (g : NeatGenome) : ℕ :=
  g.nodes.countP fun n => n.type == NodeT.input

/- Species operations (neat.c lines 806-888). -/

/-- neat_create_species. -/
def neat_create_species (id : ℤ) : NeatSpecies :=
  { id := id, members := [], best_fitness := -10000000000, average_fitness := 0
    staleness := 0, age := 0, representative := none }

/-- neat_add_genome_to_species: append, bump best fitness and reset
staleness on improvement, then recompute the mean fitness. -/
def neat_add_genome_to_species (sp : NeatSpecies) (g : NeatGenome) : NeatSpecies :=
  let sp1 := { sp with members := sp.members ++ [g] }
  let sp2 := if g.fitness > sp1.best_fitness then
      { sp1 with best_fitness := g.fitness, staleness := 0 }
    else sp1
  { sp2 with average_fitness :=
      (sp2.members.foldl (fun a m => a + m.fitness) 0) / (sp2.members.length : ℚ) }

/-- neat_adjust_fitness: fitness sharing inside one species. -/
def neat_adjust_fitness (sp : NeatSpecies) : NeatSpecies :=
  if sp.members.length > 0 then
    { sp with members := sp.members.map fun m =>
        { m with adjusted_fitness := m.fitness / (sp.members.length : ℚ) } }
  else sp

/- Population pipeline (neat.c lines 890-1239). -/

/-- Species-walk of neat_speciate: index of the first species with members,
a representative and compatibility distance below the threshold. -/
def findCompatSpecies (g : NeatGenome) : List NeatSpecies → Option ℕ
  | [] => none
  | sp :: rest =>
    if sp.members.length > 0 ∧ sp.representative.isSome ∧
        neat_compatibility_distance g (sp.representative.getD gdummy) <
          NEAT_COMPATIBILITY_THRESHOLD then
      some 0
    else (findCompatSpecies g rest).map (· + 1)

/-- Per-genome step of neat_speciate: join the first compatible species or
open a new one whose id comes from the species counter of the registry. -/
def speciateOne (acc : List NeatSpecies × NeatInnovationTable) (g : NeatGenome) :
    List NeatSpecies × NeatInnovationTable :=
  match findCompatSpecies g acc.1 with
  | some j => (acc.1.set j (neat_add_genome_to_species (acc.1.getD j spdummy) g), acc.2)
  | none =>
    let sid := acc.2.next_species_id
    let table := { acc.2 with next_species_id := sid + 1 }
    let nsp := { neat_create_species sid with representative := some g }
    (acc.1 ++ [neat_add_genome_to_species nsp g], table)

/-- neat_speciate: drop all species, reseed from the first genome, place
the rest, and remove species left empty. -/
def neat_speciate (pop : NeatPopulation) : NeatPopulation :=
  match pop.genomes with
  | [] => { pop with species := [] }
  | g0 :: rest =>
    let sid := pop.innovation_table.next_species_id
    let table := { pop.innovation_table with next_species_id := sid + 1 }
    let sp0 := neat_add_genome_to_species
      { neat_create_species sid with representative := some g0 } g0
    let r := rest.foldl speciateOne ([sp0], table)
    { pop with
      species := r.1.filter (fun sp => sp.members.length ≠ 0),
      innovation_table := r.2 }

/-- Loop body of neat_remove_stale_species.  The C loop increments
staleness, and on a best-fitness improvement resets it, stores the best
into the int-typed max_fitness_achieved (truncating) and revisits the same
index without advancing; when the stored best still exceeds its truncation
the revisits repeat the identical state forever, which the model reports
as none.  No branch ever removes a species. -/
def staleLoop (maxF : ℤ) : List NeatSpecies → Option (List NeatSpecies × ℤ)
  | [] => some ([], maxF)
  | sp :: rest =>
    let sp1 := { sp with staleness := sp.staleness + 1 }
    if sp1.best_fitness > (maxF : ℚ) then
      let maxF2 := ctrunc sp1.best_fitness
      let sp2 := { sp1 with staleness := 0 }
      let sp3 := { sp2 with staleness := sp2.staleness + 1 }
      if sp3.best_fitness > (maxF2 : ℚ) then none
      else (staleLoop maxF2 rest).map fun r => (sp3 :: r.1, r.2)
    else (staleLoop maxF rest).map fun r => (sp1 :: r.1, r.2)

/-- neat_remove_stale_species. -/
def neat_remove_stale_species (pop : NeatPopulation) : Option NeatPopulation :=
  (staleLoop pop.max_fitness_achieved pop.species).map fun r =>
    { pop with species := r.1, max_fitness_achieved := r.2 }

/-- Sum of absolute species mean fitnesses, computed at the top of both
neat_remove_weak_species and neat_reproduce. -/
def totalAvgFitness (sps : List NeatSpecies) : ℚ :=
  sps.foldl (fun a sp => a + |sp.average_fitness|) 0

/-- neat_remove_weak_species: a species is kept only when its
proportional offspring allocation truncates to at least 1.  The C code
divides by the fitness total without a zero guard; with an all-zero total
the 0/0 ratio is NaN and the int cast yields a value below 1 on the
target, so every species is culled, which the rational model reproduces
since division by zero yields zero. -/
def neat_remove_weak_species (pop : NeatPopulation) : NeatPopulation :=
  let total := totalAvgFitness pop.species
  { pop with species := pop.species.filter fun sp =>
      ¬(ctrunc ((|sp.average_fitness| / total) * (pop.population_size : ℚ)) < 1) }

/-- Modelled from the spec: neat_clone_genome is declared in
include/neat.h and called from neat.c and src/parallel.c, but its
definition is not under src/.  Spec section 4.1 Clone: deep copy of node
list, connection list, and scalar fields; evaluation order may be
recomputed lazily (so the clone starts without a cached order). -/
def neat_clone_genome (g : NeatGenome) : NeatGenome :=
  { g with evaluation_order := none }

/-- One comparison-and-swap of the member sort in neat_reproduce. -/
def cswap (l : List NeatGenome) (j k : ℕ) : List NeatGenome :=
  match l[j]?, l[k]? with
  | some a, some b => (l.set j b).set k a
  | _, _ => l

/-- Inner loop of the descending member sort (index k sweeping right of j);
the fuel counts loop iterations and any amount at least l.length - k
makes the loop run to its guard. -/
def csortInner (l : List NeatGenome) (j k : ℕ) : ℕ → List NeatGenome
  | 0 => l
  | fuel + 1 =>
    if k < l.length then
      let l1 := if (l.getD j gdummy).fitness < (l.getD k gdummy).fitness then cswap l j k else l
      csortInner l1 j (k + 1) fuel
    else l

/-- Outer loop of the descending member sort. -/
def csortOuter (l : List NeatGenome) (j : ℕ) : ℕ → List NeatGenome
  | 0 => l
  | fuel + 1 =>
    if j + 1 < l.length then
      csortOuter (csortInner l j (j + 1) l.length) (j + 1) fuel
    else l

/-- The in-place member sort of neat_reproduce (descending fitness).  For
an empty member list the C loop bound underflows but the inner loop body
never runs, so the list is unchanged, as here. -/
def csort (l : List NeatGenome) : List NeatGenome :=
  csortOuter l 0 l.length

/-- Elitism phase of neat_reproduce: while the new population is short,
sort the member list of each species by descending fitness in place and carry a
clone of the best member.  Returns the species list with the sorted
prefixes, the elites in order, and the elite count. -/
def elitePhase (psize : ℕ) : List NeatSpecies → ℕ →
    List NeatSpecies × List NeatGenome × ℕ
  | [], cnt => ([], [], cnt)
  | sp :: rest, cnt =>
    if cnt < psize then
      let sp1 := { sp with members := csort sp.members }
      match sp1.members with
      | [] =>
        let r := elitePhase psize rest cnt
        (sp1 :: r.1, r.2.1, r.2.2)
      | m :: _ =>
        let r := elitePhase psize rest (cnt + 1)
        (sp1 :: r.1, neat_clone_genome m :: r.2.1, r.2.2)
    else (sp :: rest, [], cnt)

/-- Roulette walk of neat_reproduce: subtract the absolute mean
fitness from r and stop at the first non-positive remainder or at the
last species. -/
def selectSpecies (r : ℚ) : List NeatSpecies → Option NeatSpecies
  | [] => none
  | [sp] => some sp
  | sp :: sp2 :: rest =>
    if r - |sp.average_fitness| ≤ 0 then some sp
    else selectSpecies (r - |sp.average_fitness|) (sp2 :: rest)

/-- Three-round tournament for the first parent, returning the index of
the fittest drawn member. -/
def tourney3 (members : List NeatGenome) (s : ℕ) : ℕ → Option ℕ → ℕ × ℕ
  | 0, best => (best.getD 0, s)
  | round + 1, best =>
    let d := neat_random_int 0 ((members.length : ℤ) - 1) s
    let idx := d.1.toNat
    let best' := match best with
      | none => some idx
      | some b =>
        if (members.getD idx gdummy).fitness > (members.getD b gdummy).fitness then some idx
        else some b
    tourney3 members d.2 round best'

/-- Three-round tournament for the optional second parent; the C code
skips a candidate whose pointer equals the first parent, which is index
equality since species members are pairwise distinct objects. -/
def tourney3b (members : List NeatGenome) (p1 : ℕ) (s : ℕ) :
    ℕ → Option ℕ → Option ℕ × ℕ
  | 0, best => (best, s)
  | round + 1, best =>
    let d := neat_random_int 0 ((members.length : ℤ) - 1) s
    let idx := d.1.toNat
    let best' :=
      if best.isNone ∨
          (members.getD idx gdummy).fitness > (members.getD (best.getD 0) gdummy).fitness then
        if idx ≠ p1 then some idx else best
      else best
    tourney3b members p1 d.2 round best'

/-- Offspring fill loop of neat_reproduce.  The guard is tested before
fuel is consumed; a continue consumes one unit, so none for every fuel
amount means the C while-loop never exits. -/
def fillLoop (O : AnalyticOracle) (total : ℚ) (sps : List NeatSpecies)
    (psize : ℕ) : ℕ → NeatInnovationTable → List NeatGenome → ℕ →
    Option (List NeatGenome × NeatInnovationTable × ℕ)
  | 0, table, genomes, s =>
    if psize ≤ genomes.length then some (genomes, table, s) else none
  | fuel + 1, table, genomes, s =>
    if psize ≤ genomes.length then some (genomes, table, s)
    else
      let ru := neat_random_uniform 0 total s
      match selectSpecies ru.1 sps with
      | none => fillLoop O total sps psize fuel table genomes ru.2
      | some sp =>
        if sp.members.length = 0 then fillLoop O total sps psize fuel table genomes ru.2
        else
          let t1 := tourney3 sp.members ru.2 3 none
          let u := neat_random_uniform 0 1 t1.2
          let t2 : Option ℕ × ℕ :=
            if u.1 < 0.3 then tourney3b sp.members t1.1 u.2 3 none else (none, u.2)
          let off : NeatGenome × ℕ :=
            match t2.1 with
            | some i2 => neat_crossover O (sp.members.getD t1.1 gdummy)
                (sp.members.getD i2 gdummy) t2.2
            | none => (neat_clone_genome (sp.members.getD t1.1 gdummy), t2.2)
          let m := neat_mutate O off.1 table off.2
          let genomes2 := if genomes.length < psize then genomes ++ [m.1] else genomes
          fillLoop O total sps psize fuel m.2.1 genomes2 m.2.2

/-- neat_reproduce: elites, then offspring until the target size; the new
genome list replaces the old one and the generation counter advances. -/
def neat_reproduce (O : AnalyticOracle) (pop : NeatPopulation) (s : ℕ)
    (fuel : ℕ) : Option (NeatPopulation × ℕ) :=
  let total := totalAvgFitness pop.species
  let ep := elitePhase pop.population_size pop.species 0
  match fillLoop O total ep.1 pop.population_size fuel pop.innovation_table ep.2.1 s with
  | none => none
  | some r =>
    some ({ pop with
             genomes := r.1, species := ep.1, innovation_table := r.2.1,
             generation := pop.generation + 1 }, r.2.2)

/-- neat_evolve without the external fitness callback (the NULL-callback
path): speciate, share fitness, update staleness, cull weak species,
reproduce. -/
def neat_evolve (O : AnalyticOracle) (pop : NeatPopulation) (s : ℕ)
    (fuel : ℕ) : Option (NeatPopulation × ℕ) :=
  let p1 := neat_speciate pop
  let p2 := { p1 with species := p1.species.map neat_adjust_fitness }
  match neat_remove_stale_species p2 with
  | none => none
  | some p3 =>
    let p4 := neat_remove_weak_species p3
    neat_reproduce O p4 s fuel

/- Lemmas about the compatibility gene walk. -/

theorem cdWalk_comm (xs ys : List NeatConnection) : cdWalk xs ys = cdWalk ys xs := by
  induction xs, ys using cdWalk.induct with
  | case1 ys =>
    cases ys with
    | nil => rfl
    | cons y ys => simp [cdWalk]
  | case2 x xs => simp [cdWalk]
  | case3 x xs y ys h ih =>
    rw [cdWalk, cdWalk, if_pos h, if_pos h.symm, ih, abs_sub_comm]
  | case4 x xs y ys h1 h2 ih =>
    have h3 : ¬y.innovation = x.innovation := fun e => h1 e.symm
    have h4 : ¬y.innovation < x.innovation := not_lt.mpr (le_of_lt h2)
    rw [cdWalk, cdWalk, if_neg h1, if_pos h2, if_neg h3, if_neg h4, ih]
  | case5 x xs y ys h1 h2 ih =>
    have h3 : ¬y.innovation = x.innovation := fun e => h1 e.symm
    have h5 : y.innovation < x.innovation := lt_of_le_of_ne (not_lt.mp h2) h3
    rw [cdWalk, cdWalk, if_neg h1, if_neg h2, if_neg h3, if_pos h5, ih]

theorem cdWalk_self (xs : List NeatConnection) : cdWalk xs xs = (xs.length, 0, 0, 0) := by
  induction xs with
  | nil => simp [cdWalk]
  | cons x xs ih =>
    rw [cdWalk, if_pos rfl, ih]
    simp

/-- C7: the compatibility distance of neat_compatibility_distance is
symmetric in its two genomes and vanishes on identical genomes. -/
theorem c7_compatibility_symmetric_and_zero_at_identity (g1 g2 : NeatGenome) :
    neat_compatibility_distance g1 g2 = neat_compatibility_distance g2 g1 ∧
    neat_compatibility_distance g1 g1 = 0 := by
  constructor
  · unfold neat_compatibility_distance
    rw [cdWalk_comm, Nat.max_comm]
  · unfold neat_compatibility_distance
    rw [cdWalk_self]
    by_cases h : g1.connections.length > 0 <;> simp [h]

/- Claim C6: the duplicate check of neat_add_connection. -/

theorem connExists_iff (l : List NeatConnection) (i o : ℤ) :
    connExists l i o = true ↔ ∃ c ∈ l, c.in_node = i ∧ c.out_node = o := by
  induction l with
  | nil => simp [connExists]
  | cons c cs ih =>
    rw [connExists]
    by_cases h : c.in_node = i ∧ c.out_node = o
    · simp [h]
    · simp only [if_neg h, ih, List.mem_cons]
      constructor
      · rintro ⟨d, hd, hio⟩
        exact ⟨d, Or.inr hd, hio⟩
      · rintro ⟨d, hd | hd, hio⟩
        · exact absurd (hd ▸ hio) h
        · exact ⟨d, hd, hio⟩

/-- C6 (amended): neat_add_connection rejects exactly the endpoint
duplicates, returning -1 and leaving the genome unchanged; in every other
case, including in = out and any placement relation, it appends the gene
with innovation id -1 and clears the evaluation-order cache. -/
theorem c6_add_connection_characterization (g : NeatGenome) (i o : ℤ) (w : ℚ) (e : Bool) :
    (connExists g.connections i o = true ↔
      ∃ c ∈ g.connections, c.in_node = i ∧ c.out_node = o) ∧
    ((∃ c ∈ g.connections, c.in_node = i ∧ c.out_node = o) →
      neat_add_connection g i o w e = (-1, g)) ∧
    (¬(∃ c ∈ g.connections, c.in_node = i ∧ c.out_node = o) →
      neat_add_connection g i o w e =
        (0, { g with
              connections := g.connections ++
                [{ innovation := -1, in_node := i, out_node := o, weight := w, enabled := e }],
              evaluation_order := none })) := by
  refine ⟨connExists_iff g.connections i o, ?_, ?_⟩
  · intro h
    rw [neat_add_connection, if_pos ((connExists_iff g.connections i o).mpr h)]
  · intro h
    rw [neat_add_connection, if_neg]
    intro hc
    exact h ((connExists_iff g.connections i o).mp hc)

/-- Genome with one node and no connections, for the C6 counterexample. -/
def c6gSelf : NeatGenome :=
  { id := 0
    nodes := [{ id := 0, type := .hidden, placement := .hidden, activation_type := .sigmoid
                value := 0, bias := 0, active := true, x_pos := 0 }]
    connections := [], fitness := 0, adjusted_fitness := 0, global_rank := 0
    species_id := -1, evaluation_order := none }

/-- C6 counterexample: a self-connection (in = out = 0) is accepted, the
gene is appended and 0 is returned, where the claim requires failure and
an unchanged connection list. -/
theorem c6_counterexample :
    neat_add_connection c6gSelf 0 0 (1/2) true =
      (0, { c6gSelf with
            connections := [{ innovation := -1, in_node := 0, out_node := 0
                              weight := 1/2, enabled := true }],
            evaluation_order := none }) := by
  with_unfolding_all decide

/-- Genome with one connection (0, 1), for the C6 witness. -/
def c6gDup : NeatGenome :=
  { id := 0, nodes := []
    connections := [{ innovation := 5, in_node := 0, out_node := 1, weight := 1/4, enabled := true }]
    fitness := 0, adjusted_fitness := 0, global_rank := 0
    species_id := -1, evaluation_order := none }

/-- C6 witness: the characterization applied at a concrete duplicate. -/
theorem c6_witness : neat_add_connection c6gDup 0 1 (3/4) false = (-1, c6gDup) :=
  (c6_add_connection_characterization c6gDup 0 1 (3/4) false).2.1 (by with_unfolding_all decide)

/-- C8: neat_add_node appends a node with the next local id but leaves the
cached evaluation order untouched: the invalidation statements sit after
the return statement in the C source and never run, so the claimed cache
invalidation does not happen. -/
theorem c8_add_node_appends_but_keeps_stale_cache (O : AnalyticOracle)
    (g : NeatGenome) (t : NodeT) (p : PlacementT) (s : ℕ) :
    (neat_add_node O g t p s).1 = (g.nodes.length : ℤ) ∧
    (neat_add_node O g t p s).2.1.nodes.length = g.nodes.length + 1 ∧
    (neat_add_node O g t p s).2.1.evaluation_order = g.evaluation_order := by
  refine ⟨rfl, ?_, rfl⟩
  simp [neat_add_node]

/- Claim C4: neat_remove_stale_species removes no species. -/

theorem staleLoop_ids (sps : List NeatSpecies) :
    ∀ maxF out, staleLoop maxF sps = some out →
      out.1.map (fun sp => sp.id) = sps.map (fun sp => sp.id) := by
  induction sps with
  | nil =>
    intro maxF out h
    rw [staleLoop] at h
    cases h
    rfl
  | cons sp rest ih =>
    intro maxF out h
    rw [staleLoop] at h
    by_cases h1 : ({ sp with staleness := sp.staleness + 1 } : NeatSpecies).best_fitness >
        ((maxF : ℤ) : ℚ)
    · rw [if_pos h1] at h
      by_cases h2 : ({ sp with staleness := 0 + 1 } : NeatSpecies).best_fitness >
          ((ctrunc ({ sp with staleness := sp.staleness + 1 } : NeatSpecies).best_fitness : ℤ) : ℚ)
      · rw [if_pos h2] at h
        cases h
      · rw [if_neg h2] at h
        obtain ⟨r, hr, hout⟩ := Option.map_eq_some'.mp h
        rw [← hout]
        simpa using ih _ r hr
    · rw [if_neg h1] at h
      obtain ⟨r, hr, hout⟩ := Option.map_eq_some'.mp h
      rw [← hout]
      simpa using ih _ r hr

/-- C4: whenever neat_remove_stale_species returns, the species list has
the same length and the same ids as before: no species is ever removed,
stale or not, so the claimed stagnation eviction does not happen. -/
theorem c4_remove_stale_removes_no_species (pop res : NeatPopulation)
    (h : neat_remove_stale_species pop = some res) :
    res.species.length = pop.species.length ∧
    res.species.map (fun sp => sp.id) = pop.species.map (fun sp => sp.id) := by
  unfold neat_remove_stale_species at h
  obtain ⟨r, hr, hres⟩ := Option.map_eq_some'.mp h
  have hids := staleLoop_ids pop.species pop.max_fitness_achieved r hr
  rw [← hres]
  refine ⟨?_, hids⟩
  have := congrArg List.length hids
  simpa using this

/-- Population with one species stale for 99 generations that does not
hold the global best, for the C4 witness. -/
def c4pop : NeatPopulation :=
  { genomes := []
    species := [{ id := 7, members := [], best_fitness := 0, average_fitness := 0
                  staleness := 99, age := 0, representative := none }]
    innovation_table := { innovations := [], next_innovation := 1, next_node_id := 1, next_species_id := 1 }
    population_size := 2, generation := 0, max_fitness_achieved := 5 }

/-- Expected result of neat_remove_stale_species on c4pop: the stale
species survives with staleness 100. -/
def c4res : NeatPopulation :=
  { c4pop with
    species := [{ id := 7, members := [], best_fitness := 0, average_fitness := 0
                  staleness := 100, age := 0, representative := none }] }

/-- C4 witness: the no-removal theorem applied at the concrete stale
population. -/
theorem c4_witness :
    neat_remove_stale_species c4pop = some c4res ∧
    c4res.species.length = c4pop.species.length :=
  ⟨by with_unfolding_all decide,
   (c4_remove_stale_removes_no_species c4pop c4res (by with_unfolding_all decide)).1⟩

/- Claim C1: bias-node values after activation. -/

/-- Genome with a single bias node (bias scalar 0, default sigmoid
activation, no connections, no cached order), for C1. -/
def c1g : NeatGenome :=
  { id := 0
    nodes := [{ id := 0, type := .bias, placement := .input, activation_type := .sigmoid
                value := 5, bias := 0, active := true, x_pos := 0 }]
    connections := [], fitness := 0, adjusted_fitness := 0, global_rank := 0
    species_id := -1, evaluation_order := none }

/-- C1: for any oracle whose exp sends 0 to 1 (as the real exponential
does), activating c1g leaves its bias node at value 1/2, not 1.0:
neat_evaluate first writes 1.0, but neat_update_network then zeroes every
non-input node, bias nodes included, and recomputes the bias node as
sigmoid(0 + bias) = 1/2, contradicting the claimed invariant and the
comment at neat.c line 724. -/
theorem c1_bias_value_not_one (O : AnalyticOracle) (h : O.exp 0 = 1) :
    ((neat_evaluate O c1g []).map fun r => r.1.nodes.map fun n => n.value) = some [1/2] ∧
    ¬((1 : ℚ)/2 = 1) := by
  constructor
  · simp [neat_evaluate, c1g, setInputValues, neat_update_network, List.range,
      List.range.loop, evalNodesInOrder, sumIncoming, neat_activation,
      collectOutputs, h]
    norm_num
  · norm_num

/-- Oracle with exp constantly 1 (matching the real exp at 0), for the C1
witness. -/
def oneExpOracle : AnalyticOracle :=
  { zeroOracle with exp := fun _ => 1 }

/-- C1 witness: the bias-value theorem applied at the concrete oracle. -/
theorem c1_witness :
    ((neat_evaluate oneExpOracle c1g []).map fun r => r.1.nodes.map fun n => n.value) =
      some [1/2] ∧ ¬((1 : ℚ)/2 = 1) :=
  c1_bias_value_not_one oneExpOracle rfl

/- Claim C9: no arity check in neat_evaluate. -/

theorem setInputValues_append (nodes : List NeatNode) :
    ∀ (inputs extra : List ℚ) (cnt : ℕ),
      cnt + nodes.countP (fun n => n.type == NodeT.input) ≤ inputs.length →
      setInputValues nodes (inputs ++ extra) cnt = setInputValues nodes inputs cnt := by
  induction nodes with
  | nil => intro inputs extra cnt h; rfl
  | cons n ns ih =>
    intro inputs extra cnt h
    rw [List.countP_cons] at h
    rw [setInputValues, setInputValues]
    cases ht : n.type with
    | input =>
      simp [ht] at h
      have hcnt : cnt < inputs.length := by omega
      by_cases hmax : cnt < NEAT_MAX_INPUTS
      · simp only [if_pos hmax, List.getElem?_append_left hcnt,
          ih inputs extra (cnt + 1) (by omega)]
      · simp only [if_neg hmax, ih inputs extra cnt (by omega)]
    | bias =>
      simp [ht] at h
      simp only [ih inputs extra cnt (by omega)]
    | hidden =>
      simp [ht] at h
      simp only [ih inputs extra cnt (by omega)]
    | output =>
      simp [ht] at h
      simp only [ih inputs extra cnt (by omega)]

/-- C9 (amended): neat_evaluate performs no arity check and surfaces no
error (its C return type is void): with at least as many inputs as input
nodes it behaves identically whether or not surplus entries follow, and a
deficit is an out-of-bounds read of the caller array (undefined
behavior), not a reported error. -/
theorem c9_no_arity_check_surplus_ignored (O : AnalyticOracle) (g : NeatGenome)
    (inputs extra : List ℚ) (h : countInputNodes g ≤ inputs.length) :
    neat_evaluate O g (inputs ++ extra) = neat_evaluate O g inputs := by
  unfold neat_evaluate
  rw [setInputValues_append g.nodes inputs extra 0 (by simpa [countInputNodes] using h)]

/-- Genome with one input node and nothing else, for C9. -/
def c9g : NeatGenome :=
  { id := 0
    nodes := [{ id := 0, type := .input, placement := .input, activation_type := .sigmoid
                value := 0, bias := 0, active := true, x_pos := 0 }]
    connections := [], fitness := 0, adjusted_fitness := 0, global_rank := 0
    species_id := -1, evaluation_order := none }

/-- C9 counterexample: activation with arity 2 against a single input node
(a mismatch) completes normally and returns a result; no error reaches
the caller, where the claim requires one to be surfaced. -/
theorem c9_counterexample :
    countInputNodes c9g = 1 ∧ ((3 : ℚ) :: 7 :: []).length = 2 ∧
    (neat_evaluate zeroOracle c9g [3, 7]).isSome = true := by
  refine ⟨rfl, rfl, ?_⟩
  with_unfolding_all decide

/-- C9 witness: the surplus-ignored theorem applied at the concrete
genome. -/
theorem c9_witness :
    neat_evaluate zeroOracle c9g ([3] ++ [7]) = neat_evaluate zeroOracle c9g [3] :=
  c9_no_arity_check_surplus_ignored zeroOracle c9g [3] [7] (by with_unfolding_all decide)

/- Shared concrete-node builder for the closed evaluations below. -/

/-- Node with given id, role and placement, zero bias and default sigmoid
activation. -/
def mkNode (i : ℤ) (t : NodeT) (p : PlacementT) : NeatNode :=
  { id := i, type := t, placement := p, activation_type := .sigmoid
    value := 0, bias := 0, active := true, x_pos := 0 }

/- Claim C3: splitting the same connection in two genomes. -/

/-- Fresh innovation table, as neat_create_innovation_table builds it. -/
def tableC3 : NeatInnovationTable :=
  { innovations := [], next_innovation := 1, next_node_id := 1, next_species_id := 1 }

/-- Two-node genome with the single enabled connection (0, 1). -/
def c3genA : NeatGenome :=
  { id := 0, nodes := [mkNode 0 .input .input, mkNode 1 .output .output]
    connections := [{ innovation := 1, in_node := 0, out_node := 1, weight := 1/2, enabled := true }]
    fitness := 0, adjusted_fitness := 0, global_rank := 0, species_id := -1
    evaluation_order := none }

/-- Three-node genome with the same single enabled connection (0, 1). -/
def c3genB : NeatGenome :=
  { id := 1, nodes := [mkNode 0 .input .input, mkNode 1 .output .output, mkNode 2 .hidden .hidden]
    connections := [{ innovation := 1, in_node := 0, out_node := 1, weight := 1/2, enabled := true }]
    fitness := 0, adjusted_fitness := 0, global_rank := 0, species_id := -1
    evaluation_order := none }

/-- Split of connection (0, 1) in c3genA against a fresh registry. -/
def c3rA : NeatGenome × NeatInnovationTable × ℕ :=
  neat_mutate_add_node zeroOracle c3genA tableC3 1

/-- Split of the same connection (0, 1) in c3genB, in the same generation
(same registry, continuing the RNG stream). -/
def c3rB : NeatGenome × NeatInnovationTable × ℕ :=
  neat_mutate_add_node zeroOracle c3genB c3rA.2.1 c3rA.2.2

/-- C3: splitting the same connection (0, 1) in two genomes of one
generation synthesises node id 2 in the first genome but node id 3 in the
second (neat_mutate_add_node takes the genome-local next id from
neat_add_node instead of a registry id), and the two replacement
connections get innovation ids (2, 4) in the first genome but (6, 8) in
the second (the registry is keyed on the differing local node ids, so the
memoisation never matches).  The claimed id consistency fails. -/
theorem c3_same_split_yields_different_ids :
    c3rA.1.nodes.map (fun n => n.id) = [0, 1, 2] ∧
    c3rB.1.nodes.map (fun n => n.id) = [0, 1, 2, 3] ∧
    c3rA.1.connections.map (fun c => c.innovation) = [1, 2, 4] ∧
    c3rB.1.connections.map (fun c => c.innovation) = [1, 6, 8] ∧
    ((2 : ℤ) ≠ 3 ∧ ¬([(2 : ℤ), 4] = [6, 8])) := by
  with_unfolding_all decide

/- Claim C2: crossover and innovation ids. -/

/-- Fitter parent for the C2 evaluation, with gene innovations 1, 2, 3
(the shape of the crossover unit test in tests/test_neat.c). -/
def c2p1 : NeatGenome :=
  { id := 1
    nodes := [mkNode 0 .input .input, mkNode 1 .output .output, mkNode 2 .hidden .hidden]
    connections :=
      [{ innovation := 1, in_node := 0, out_node := 1, weight := 1/2, enabled := true },
       { innovation := 2, in_node := 0, out_node := 2, weight := 3/10, enabled := true },
       { innovation := 3, in_node := 2, out_node := 1, weight := 7/10, enabled := true }]
    fitness := 2, adjusted_fitness := 0, global_rank := 0, species_id := -1
    evaluation_order := none }

/-- Weaker parent for the C2 evaluation, with gene innovations 1, 4, 5. -/
def c2p2 : NeatGenome :=
  { id := 2
    nodes := [mkNode 0 .input .input, mkNode 1 .output .output, mkNode 2 .hidden .hidden,
              mkNode 3 .hidden .hidden]
    connections :=
      [{ innovation := 1, in_node := 0, out_node := 2, weight := 2/5, enabled := true },
       { innovation := 4, in_node := 2, out_node := 3, weight := 3/5, enabled := true },
       { innovation := 5, in_node := 3, out_node := 1, weight := 4/5, enabled := true }]
    fitness := 1, adjusted_fitness := 0, global_rank := 0, species_id := -1
    evaluation_order := none }

/-- C2: every connection of the crossover child carries innovation id -1,
because neat_add_connection writes -1 and neat_crossover never rebinds the
inherited id; no child gene traces its innovation id to either parent,
though all six parent genes carry positive ids.  This also contradicts the
containment assertion of the crossover unit test in tests/test_neat.c. -/
theorem c2_crossover_child_innovation_ids_all_unset :
    (neat_crossover zeroOracle c2p1 c2p2 1).1.connections.map (fun c => c.innovation) =
      [-1, -1, -1] ∧
    (∀ c ∈ (neat_crossover zeroOracle c2p1 c2p2 1).1.connections,
      ¬∃ d ∈ c2p1.connections ++ c2p2.connections, d.innovation = c.innovation) := by
  with_unfolding_all decide

/- Length preservation of the member sort in neat_reproduce. -/

theorem cswap_length (l : List NeatGenome) (j k : ℕ) :
    (cswap l j k).length = l.length := by
  unfold cswap
  cases l[j]? <;> cases l[k]? <;> simp

theorem csortInner_length :
    ∀ (fuel : ℕ) (l : List NeatGenome) (j k : ℕ),
      (csortInner l j k fuel).length = l.length := by
  intro fuel
  induction fuel with
  | zero => intro l j k; rfl
  | succ fuel ih =>
    intro l j k
    rw [csortInner]
    by_cases hk : k < l.length
    · rw [if_pos hk, ih]
      by_cases hf : (l.getD j gdummy).fitness < (l.getD k gdummy).fitness
      · rw [if_pos hf, cswap_length]
      · rw [if_neg hf]
    · rw [if_neg hk]

theorem csortOuter_length :
    ∀ (fuel : ℕ) (l : List NeatGenome) (j : ℕ),
      (csortOuter l j fuel).length = l.length := by
  intro fuel
  induction fuel with
  | zero => intro l j; rfl
  | succ fuel ih =>
    intro l j
    rw [csortOuter]
    by_cases hj : j + 1 < l.length
    · rw [if_pos hj, ih, csortInner_length]
    · rw [if_neg hj]

theorem csort_length (l : List NeatGenome) : (csort l).length = l.length :=
  csortOuter_length l.length l 0

/- Shape of the elitism phase of neat_reproduce. -/

theorem elitePhase_species_length (psize : ℕ) :
    ∀ (sps : List NeatSpecies) (cnt : ℕ),
      (elitePhase psize sps cnt).1.length = sps.length := by
  intro sps
  induction sps with
  | nil => intro cnt; rfl
  | cons sp rest ih =>
    intro cnt
    rw [elitePhase]
    by_cases hc : cnt < psize
    · rw [if_pos hc]
      cases hm : csort sp.members with
      | nil => simpa using ih cnt
      | cons m ms => simpa using ih (cnt + 1)
    · rw [if_neg hc]

theorem elitePhase_members_nonempty (psize : ℕ) :
    ∀ (sps : List NeatSpecies) (cnt : ℕ),
      (∀ sp ∈ sps, sp.members ≠ []) →
      ∀ sp' ∈ (elitePhase psize sps cnt).1, sp'.members ≠ [] := by
  intro sps
  induction sps with
  | nil => intro cnt h sp' h'; simp [elitePhase] at h'
  | cons sp rest ih =>
    intro cnt h sp' h'
    rw [elitePhase] at h'
    by_cases hc : cnt < psize
    · rw [if_pos hc] at h'
      have hne : csort sp.members ≠ [] := by
        intro he
        have := csort_length sp.members
        rw [he] at this
        exact h sp (List.mem_cons_self sp rest) (List.length_eq_zero.mp this.symm)
      cases hm : csort sp.members with
      | nil => exact absurd hm hne
      | cons m ms =>
        rw [hm] at h'
        simp only [List.mem_cons] at h'
        rcases h' with h' | h'
        · rw [h']
          simp [hm]
        · exact ih (cnt + 1) (fun q hq => h q (List.mem_cons_of_mem sp hq)) sp' h'
    · rw [if_neg hc] at h'
      exact h sp' h'

/- Behavior of the roulette selection of neat_reproduce. -/

theorem selectSpecies_mem (r : ℚ) :
    ∀ (sps : List NeatSpecies), sps ≠ [] →
      ∃ sp, selectSpecies r sps = some sp ∧ sp ∈ sps := by
  intro sps
  induction sps generalizing r with
  | nil => intro h; exact absurd rfl h
  | cons sp rest ih =>
    intro _
    cases rest with
    | nil => exact ⟨sp, rfl, List.mem_singleton_self sp⟩
    | cons sp2 t =>
      by_cases hr : r - |sp.average_fitness| ≤ 0
      · exact ⟨sp, by rw [selectSpecies, if_pos hr], List.mem_cons_self _ _⟩
      · obtain ⟨sq, hsq, hmem⟩ := ih (r - |sp.average_fitness|) (by simp)
        exact ⟨sq, by rw [selectSpecies, if_neg hr]; exact hsq, List.mem_cons_of_mem sp hmem⟩

/- The offspring fill loop with no species to select from never exits. -/

theorem fillLoop_no_species (O : AnalyticOracle) (total : ℚ) (psize : ℕ)
    (table : NeatInnovationTable) (genomes : List NeatGenome) :
    ∀ (fuel s : ℕ), genomes.length < psize →
      fillLoop O total [] psize fuel table genomes s = none := by
  intro fuel
  induction fuel with
  | zero => intro s h; rw [fillLoop, if_neg (by omega)]
  | succ fuel ih =>
    intro s h
    rw [fillLoop, if_neg (by omega)]
    exact ih _ h

/- A leading empty species with zero mean fitness and a zero fitness total
captures the roulette draw every iteration, and the loop spins on the
continue branch forever. -/

theorem fillLoop_first_empty_zero (O : AnalyticOracle) (total : ℚ)
    (htot : total = 0) (spA spB : NeatSpecies) (hA : spA.members = [])
    (havg : spA.average_fitness = 0) (psize : ℕ) (table : NeatInnovationTable)
    (genomes : List NeatGenome) :
    ∀ (fuel s : ℕ), genomes.length < psize →
      fillLoop O total [spA, spB] psize fuel table genomes s = none := by
  intro fuel
  induction fuel with
  | zero => intro s h; rw [fillLoop, if_neg (by omega)]
  | succ fuel ih =>
    intro s h
    rw [fillLoop, if_neg (by omega)]
    have hr : (neat_random_uniform 0 total s).1 = 0 := by
      simp [neat_random_uniform, htot]
    have hsel : selectSpecies (neat_random_uniform 0 total s).1 [spA, spB] = some spA := by
      rw [selectSpecies, if_pos]
      rw [hr, havg]
      simp
    simp only [hsel]
    rw [if_pos (by simp [hA])]
    exact ih _ h

/- With at least one species and no empty species, every iteration of the
fill loop appends exactly one offspring, so population-size many units of
fuel always suffice. -/

theorem fillLoop_isSome (O : AnalyticOracle) (total : ℚ) (sps : List NeatSpecies)
    (psize : ℕ) (hne : sps ≠ []) (hmem : ∀ sp ∈ sps, sp.members ≠ []) :
    ∀ (fuel : ℕ) (table : NeatInnovationTable) (genomes : List NeatGenome) (s : ℕ),
      psize ≤ genomes.length + fuel →
      (fillLoop O total sps psize fuel table genomes s).isSome = true := by
  intro fuel
  induction fuel with
  | zero =>
    intro table genomes s h
    rw [fillLoop, if_pos (by omega)]
    rfl
  | succ fuel ih =>
    intro table genomes s h
    rw [fillLoop]
    by_cases hdone : psize ≤ genomes.length
    · rw [if_pos hdone]; rfl
    · rw [if_neg hdone]
      obtain ⟨sp, hsel, hmemsp⟩ :=
        selectSpecies_mem (neat_random_uniform 0 total s).1 sps hne
      simp only [hsel]
      have hlen : ¬sp.members.length = 0 := by
        simpa [List.length_eq_zero] using hmem sp hmemsp
      have hlt : genomes.length < psize := by omega
      rw [if_neg hlen, if_pos hlt]
      exact ih _ _ _ (by simp [List.length_append]; omega)

/- Claim C10: termination of the neat_reproduce fill loop. -/

/-- Minimal genome: one input node, no connections, fitness 0. -/
def gZero : NeatGenome :=
  { id := 0, nodes := [mkNode 0 .input .input], connections := []
    fitness := 0, adjusted_fitness := 0, global_rank := 0, species_id := -1
    evaluation_order := none }

/-- Empty species (best fitness arbitrary; it is never read here). -/
def c10spEmpty : NeatSpecies :=
  { id := 1, members := [], best_fitness := 0, average_fitness := 0
    staleness := 0, age := 0, representative := none }

/-- Species holding one genome of fitness 0. -/
def c10spOne : NeatSpecies :=
  { id := 2, members := [gZero], best_fitness := 0, average_fitness := 0
    staleness := 0, age := 0, representative := none }

/-- Population whose species list holds one empty species followed by one
species with a member, against a target size of 3. -/
def c10pop : NeatPopulation :=
  { genomes := [gZero], species := [c10spEmpty, c10spOne]
    innovation_table := tableC3, population_size := 3, generation := 0
    max_fitness_achieved := 0 }

/-- Divergence of neat_reproduce on c10pop: none for every amount of fuel,
i.e. the C while-loop never exits. -/
def c10ReproduceDiverges : Prop :=
  ∀ (O : AnalyticOracle) (s fuel : ℕ), neat_reproduce O c10pop s fuel = none

theorem c10_fill_aux (O : AnalyticOracle) (s fuel : ℕ) :
    fillLoop O (totalAvgFitness c10pop.species)
      (elitePhase c10pop.population_size c10pop.species 0).1 c10pop.population_size
      fuel c10pop.innovation_table
      (elitePhase c10pop.population_size c10pop.species 0).2.1 s = none := by
  have h1 : (elitePhase c10pop.population_size c10pop.species 0).1 =
      [c10spEmpty, c10spOne] := by with_unfolding_all decide
  have h2 : (elitePhase c10pop.population_size c10pop.species 0).2.1 = [gZero] := by
    with_unfolding_all decide
  have h3 : totalAvgFitness c10pop.species = 0 := by with_unfolding_all decide
  rw [h1, h2]
  exact fillLoop_first_empty_zero O _ h3 c10spEmpty c10spOne rfl rfl
    c10pop.population_size c10pop.innovation_table [gZero] fuel s
    (by with_unfolding_all decide)

/-- C10 counterexample: c10pop has a species with a member, yet
neat_reproduce never terminates on it: the roulette draw is 0 (the fitness
total is 0), the walk stops at the first species, which is empty, and the
loop takes the continue branch forever.  The claimed termination for every
population with at least one non-empty species is false. -/
theorem c10_counterexample : c10ReproduceDiverges := by
  intro O s fuel
  have h := c10_fill_aux O s fuel
  simp only [neat_reproduce]
  rw [h]

/-- C10 (amended): the offspring fill loop of neat_reproduce terminates
for every population whose species list is non-empty and contains no
empty species (population-size plus one units of fuel, i.e. loop
iterations, always suffice); with an empty species list and a positive
target size the loop never selects a species and never exits. -/
theorem c10_reproduce_termination (O : AnalyticOracle) (pop : NeatPopulation) (s : ℕ) :
    (pop.species ≠ [] → (∀ sp ∈ pop.species, sp.members ≠ []) →
      (neat_reproduce O pop s (pop.population_size + 1)).isSome = true) ∧
    (pop.species = [] → 0 < pop.population_size →
      ∀ fuel, neat_reproduce O pop s fuel = none) := by
  constructor
  · intro hne hmem
    simp only [neat_reproduce]
    have hne' : (elitePhase pop.population_size pop.species 0).1 ≠ [] := by
      intro he
      have := elitePhase_species_length pop.population_size pop.species 0
      rw [he] at this
      exact hne (List.length_eq_zero.mp this.symm)
    have hmem' := elitePhase_members_nonempty pop.population_size pop.species 0 hmem
    have hfill := fillLoop_isSome O (totalAvgFitness pop.species)
      (elitePhase pop.population_size pop.species 0).1 pop.population_size hne' hmem'
      (pop.population_size + 1) pop.innovation_table
      (elitePhase pop.population_size pop.species 0).2.1 s (by omega)
    obtain ⟨r, hr⟩ := Option.isSome_iff_exists.mp hfill
    rw [hr]
    rfl
  · intro hsp hpos fuel
    simp only [neat_reproduce, hsp]
    have he : elitePhase pop.population_size ([] : List NeatSpecies) 0 = ([], [], 0) := rfl
    rw [he]
    rw [fillLoop_no_species O (totalAvgFitness ([] : List NeatSpecies))
      pop.population_size pop.innovation_table [] fuel s (by simpa using hpos)]

/-- Population with a single one-member species, for the C10 witness. -/
def c10popW : NeatPopulation :=
  { genomes := [gZero], species := [c10spOne]
    innovation_table := tableC3, population_size := 2, generation := 0
    max_fitness_achieved := 0 }

/-- C10 witness: the termination theorem applied at the concrete
population with every species non-empty. -/
theorem c10_witness :
    (neat_reproduce zeroOracle c10popW 1 (c10popW.population_size + 1)).isSome = true :=
  (c10_reproduce_termination zeroOracle c10popW 1).1 (by with_unfolding_all decide)
    (by with_unfolding_all decide)

/- Claim C5: population size after neat_evolve. -/

/-- Population of two identical minimal genomes with fitness 0 (as after
generations in which the fitness callback was never invoked), one species
holding both, target size 2. -/
def c5pop : NeatPopulation :=
  { genomes := [gZero, gZero]
    species := [{ id := 1, members := [gZero, gZero], best_fitness := 0, average_fitness := 0
                  staleness := 0, age := 0, representative := some gZero }]
    innovation_table := tableC3, population_size := 2, generation := 0
    max_fitness_achieved := -1 }

/-- State of c5pop after speciation, fitness sharing and the staleness
update inside neat_evolve. -/
def c5p3 : NeatPopulation :=
  { genomes := [gZero, gZero]
    species := [{ id := 1, members := [gZero, gZero], best_fitness := 0, average_fitness := 0
                  staleness := 1, age := 0, representative := some gZero }]
    innovation_table := { innovations := [], next_innovation := 1, next_node_id := 1
                          next_species_id := 2 }
    population_size := 2, generation := 0, max_fitness_achieved := 0 }

/-- State of c5pop after the weak-species cull: the 0/0 offspring ratio
removes its only species. -/
def c5p4 : NeatPopulation :=
  { c5p3 with species := [] }

/-- C5: on a population whose genomes all carry fitness 0, neat_evolve
never returns, for any oracle, seed and fuel: the unguarded division by
the zero fitness total in neat_remove_weak_species culls every species,
and the offspring fill loop of neat_reproduce then finds no species to
select and spins on its continue branch forever.  The genome count is
never restored to the configured target, so the claimed size stability
fails. -/
theorem c5_evolve_never_returns_on_zero_fitness (O : AnalyticOracle) (s fuel : ℕ) :
    neat_evolve O c5pop s fuel = none := by
  simp only [neat_evolve]
  have h1 : neat_remove_stale_species
      { neat_speciate c5pop with
        species := (neat_speciate c5pop).species.map neat_adjust_fitness } = some c5p3 := by
    with_unfolding_all decide
  rw [h1]
  show neat_reproduce O (neat_remove_weak_species c5p3) s fuel = none
  have h2 : neat_remove_weak_species c5p3 = c5p4 := by with_unfolding_all decide
  rw [h2]
  simp only [neat_reproduce]
  have h4 : fillLoop O (totalAvgFitness c5p4.species)
      (elitePhase c5p4.population_size c5p4.species 0).1 c5p4.population_size fuel
      c5p4.innovation_table (elitePhase c5p4.population_size c5p4.species 0).2.1 s = none := by
    have e1 : (elitePhase c5p4.population_size c5p4.species 0).1 = ([] : List NeatSpecies) := rfl
    have e2 : (elitePhase c5p4.population_size c5p4.species 0).2.1 = ([] : List NeatGenome) := rfl
    rw [e1, e2]
    exact fillLoop_no_species O _ c5p4.population_size c5p4.innovation_table [] fuel s
      (by with_unfolding_all decide)
  rw [h4]
